import Mathlib

/-!
Verification development for the casbin `Enforcer` decision pipeline
(`enforcer.go`).  The Go code is shallowly embedded: pure helper functions
become Lean functions, the mutable `Enforcer` is threaded explicitly as a
value, Go panics become an explicit `Outcome.panicked` constructor which the
top-level `enforce` wrapper converts to an error (mirroring the
`defer`/`recover` block at the head of `enforce`).  External collaborators
that live outside this file's source (the govaluate expression engine, the
gjson JSON extractor, the effector's `MergeEffects`, the storage adapter,
the sorting passes of the `model` package and the role managers) are taken
as explicit function parameters, so every theorem quantifies over them.
-/

set_option maxRecDepth 4000

/-- Go `effector.Effect` (`Allow = 0`, `Indeterminate = 1`, `Deny = 2`). -/
inductive Effect : Type where
  | allow : Effect
  | indeterminate : Effect
  | deny : Effect
deriving DecidableEq, Repr

/-- `EnforceContext`: optional first request element selecting named model
sections (`RType`/`PType`/`EType`/`MType`). -/
structure EnforceContext : Type where
  RType : String
  PType : String
  EType : String
  MType : String
deriving DecidableEq, Repr

/-- A Go `interface\x7b\x7d` value as it occurs in request values and in the
results of `govaluate` evaluation.  Go `float64` results are modelled by
integers because the pipeline only ever compares them against zero
(`result != 0` at line 700 of `enforcer.go`). -/
inductive GoValue : Type where
  | str : String → GoValue
  | num : Int → GoValue
  | boolean : Bool → GoValue
  | ctx : EnforceContext → GoValue
  | other : GoValue
deriving DecidableEq, Repr

/-- `model.Assertion`, restricted to the fields the enforce pipeline reads:
`Tokens`, `Value` and `Policy`.  The role manager attached to `g`
assertions only feeds the generated `g` functions, which are folded into
the abstract evaluator parameter. -/
structure Assertion : Type where
  tokens : List String
  value : String
  policy : List (List String)
deriving DecidableEq, Repr

/-- `model.AssertionMap`, as an association list. -/
def AssertionMap : Type := List (String × Assertion)

/-- `model.Model`: section kind ("r"/"p"/"g"/"e"/"m") to assertion map. -/
def Model : Type := List (String × AssertionMap)

/-- `e.model[sec][key]`: both Go map lookups; `none` corresponds to the nil
`*Assertion` whose field access panics. -/
def modelGet (m : Model) (sec key : String) : Option Assertion :=
  match List.lookup sec m with
  | none => none
  | some am => List.lookup key am

/-- Outcome of a Go computation: a value, a returned `error`, or a panic
(that the deferred `recover` in `enforce` later converts to an error). -/
inductive Outcome (α : Type) : Type where
  | ok : α → Outcome α
  | error : String → Outcome α
  | panicked : String → Outcome α
deriving DecidableEq, Repr

/-- Message of a Go nil-pointer dereference panic (raised when a model
section or assertion referenced by the pipeline is absent). -/
def nilDerefMsg : String := "runtime error: invalid memory address or nil pointer dereference"

/-- Message of the Go panic raised by the failed `result.(bool)` type
assertion in the policy-free branch of `enforce` (line 750). -/
def typeAssertMsg : String := "interface conversion: interface is not bool"

/-- A word character of the Go regular expressions in `enforcer.go`:
`[A-Za-z_0-9]`. -/
def isWordChar (c : Char) : Bool := c.isAlpha || c.isDigit || c == '_'

/-- Substring search used for `strings.Contains`. -/
def containsSub (pat : List Char) : List Char → Bool
  | [] => pat.isEmpty
  | c :: t => pat.isPrefixOf (c :: t) || containsSub pat t

/-- `strings.Contains s pat`. -/
def strContains (s pat : String) : Bool := containsSub pat.toList s.toList

/-- One step of `strings.Replace(_, old, new, -1)` on character lists, with
fuel (the length of the subject, an upper bound on the number of steps). -/
def replaceSubAux (pat rep : List Char) : Nat → List Char → List Char
  | _, [] => []
  | 0, l => l
  | Nat.succ fuel, c :: t =>
    if pat.isPrefixOf (c :: t) then rep ++ replaceSubAux pat rep fuel (List.drop (pat.length - 1) t)
    else c :: replaceSubAux pat rep fuel t

/-- `strings.Replace(s, pat, rep, -1)`: replace all non-overlapping
occurrences, left to right.  (`pat` is never empty at the call site in
`requestJsonReplace`; an empty pattern is returned unchanged.) -/
def strReplace (s pat rep : String) : String :=
  if pat.toList.isEmpty then s
  else String.mk (replaceSubAux pat.toList rep.toList s.toList.length s.toList)

/-- Go map `map[string]int` built from an assertion's token list
(`rTokens[token] = i`): lookup of the index of a token; on duplicate tokens
the later index wins, as with repeated Go map writes. -/
def tokenIndex (tokens : List String) (t : String) : Option Nat :=
  tokens.enum.foldl (fun acc p => if p.2 == t then some p.1 else acc) none

/-- Modelled from the spec: `util.IsNumeric` (the casbin `util` package is
not part of the given source).  Recognizes a decimal numeric literal with
an optional sign and at most one decimal point. -/
def isNumericStr (s : String) : Bool :=
  let l := s.toList
  let l1 := match l with
    | '+' :: t => t
    | '-' :: t => t
    | _ => l
  (!l1.isEmpty) && l1.all (fun c => c.isDigit || c == '.') &&
    (l1.filter (fun c => c == '.')).length ≤ 1 && l1.any Char.isDigit

/-- Attempt to recognize `eval(` followed by `[^),]*` and a closing `)`
starting at the head of the list (the body of `util.HasEval`'s regular
expression `\beval\([^),]*\)`). -/
def hasEvalAt : List Char → Bool
  | 'e' :: 'v' :: 'a' :: 'l' :: '(' :: rest =>
    match (rest.span (fun c => !(c == ',' || c == ')'))).2 with
    | ')' :: _ => true
    | _ => false
  | _ => false

/-- Scan for a `\b`-anchored `eval(...)` occurrence; the boolean argument
records whether the previous character was a word character (in which case
the word boundary `\b` fails at this position). -/
def hasEvalSearch : Bool → List Char → Bool
  | _, [] => false
  | prevWord, c :: t =>
    (if prevWord then false else hasEvalAt (c :: t)) || hasEvalSearch (isWordChar c) t

/-- Modelled from the spec: `util.HasEval` (casbin `util` package, not in
the given source) — whether the matcher source contains an `eval(...)`
call, per the regular expression `\beval\(([^),]*)\)`. -/
def hasEvalStr (s : String) : Bool := hasEvalSearch false s.toList

/-- Helper for `escapeAssertion`: after an `r`/`p` head, split a run of
digits followed by a literal dot. -/
def escSplitDigitsDot (t : List Char) : Option (List Char × List Char) :=
  match (t.span Char.isDigit) with
  | (ds, '.' :: rest2) => some (ds, rest2)
  | _ => none

/-- Fueled scanner for `escapeAssertion` (fuel bounds the number of steps by
the input length); the boolean records whether the previous character was a
word character, for the `\b` anchor. -/
def escapeAssertionAux : Nat → Bool → List Char → List Char
  | 0, _, l => l
  | Nat.succ fuel, prevWord, l =>
    match l with
    | [] => []
    | c :: t =>
      if (!prevWord) && (c == 'r' || c == 'p') then
        match escSplitDigitsDot t with
        | some (ds, rest2) => c :: (ds ++ '_' :: escapeAssertionAux fuel true rest2)
        | none => c :: escapeAssertionAux fuel (isWordChar c) t
      else c :: escapeAssertionAux fuel (isWordChar c) t

/-- Modelled from the spec: `util.EscapeAssertion` (casbin `util` package,
not in the given source) — normalizes `r.`/`p.` attribute accesses from dot
form to underscore form (regular expression `\b((r|p)[0-9]*)\.` replaced by
`${1}_`), e.g. `r.sub` becomes `r_sub`. -/
def escapeAssertion (s : String) : String :=
  String.mk (escapeAssertionAux s.toList.length false s.toList)

/-- Modelled from the spec: `util.RemoveComments` (casbin `util` package,
not in the given source) — strips everything from the first `#` on and
trims surrounding whitespace. -/
def removeComments (s : String) : String :=
  match s.splitOn "#" with
  | [] => s
  | [_] => s
  | h :: _ => h.trim

/-- Drop trailing dots, used to model how the trailing
`[A-Za-z_0-9.]+[A-Za-z_0-9]` of `requestObjectRegex` backtracks. -/
def trimTrailingDots (l : List Char) : List Char :=
  ((l.reverse).dropWhile (fun c => c == '.')).reverse

/-- Match `requestObjectRegex` = `r[_.][A-Za-z_0-9]+\.[A-Za-z_0-9.]+[A-Za-z_0-9]`
at the head of the list.  On success returns
`(matched text, token key, json path)` where the token key is the leftmost
match of `requestObjectRegexPrefix` = `r[_.][A-Za-z_0-9]+\.` inside the
matched text minus its trailing dot (exactly `prefix[:len(prefix)-1]` in
`requestJsonReplace`), and the json path is the remainder after that dot. -/
def matchReqObjAt (l : List Char) : Option (List Char × List Char × List Char) :=
  match l with
  | 'r' :: d :: rest =>
    if d == '_' || d == '.' then
      match rest.span isWordChar with
      | ([], _) => none
      | (w, rest1) =>
        match rest1 with
        | '.' :: rest2 =>
          let run := (rest2.span (fun c => isWordChar c || c == '.')).1
          let path := trimTrailingDots run
          if 2 ≤ path.length then
            some ('r' :: d :: (w ++ '.' :: path), 'r' :: d :: w, path)
          else none
        | _ => none
    else none
  | _ => none

/-- Leftmost match of `requestObjectRegex` in the list, as found by
`regexp.FindStringSubmatch` (which returns only the first match; the
pattern has no capture groups). -/
def findReqObj : List Char → Option (List Char × List Char × List Char)
  | [] => none
  | c :: t =>
    match matchReqObjAt (c :: t) with
    | some r => some r
    | none => findReqObj t

/-- `requestJsonReplace` (lines 785-808 of `enforcer.go`): substitute the
leftmost `requestObjectRegex` match in `str` — `FindStringSubmatch` returns
only the first match — by the gjson-extracted literal of the corresponding
request value, quoting it unless numeric; all textual occurrences of the
matched substring are replaced (`strings.Replace` with count `-1`).  The
gjson extractor (third-party `tidwall/gjson`) is the `jg` parameter.  A
missing token key yields the Go map zero value `0`; an out-of-range request
index panics, as the Go slice index does. -/
def requestJsonReplace (jg : String → String → String) (str : String)
    (rTokens : List String) (rvals : List GoValue) : Outcome String :=
  match findReqObj str.toList with
  | none => Outcome.ok str
  | some (m, key, path) =>
    match rvals.get? ((tokenIndex rTokens (String.mk key)).getD 0) with
    | none => Outcome.panicked "runtime error: index out of range"
    | some (GoValue.str js) =>
      let raw := jg js (String.mk path)
      let lit := if isNumericStr raw then raw else "\"" ++ raw ++ "\""
      Outcome.ok (strReplace str (String.mk m) lit)
    | some _ => Outcome.ok str

/-- The `Enforcer` state threaded through the embedded operations,
restricted to the fields those operations touch: the model, the matcher
cache (`sync.Map` as an association list), the role-manager map collapsed
into one abstract `RM` value, and the toggles read by the pipeline.
`Expr` is the abstract type of compiled govaluate expressions. -/
structure Enforcer (Expr RM : Type) : Type where
  model : Model
  matcherMap : List (String × Expr)
  rm : RM
  enabled : Bool
  autoBuildRoleLinks : Bool
  acceptJsonRequest : Bool

/-- `sync.Map.Store`: after the store, `Load key` yields `v`. -/
def cacheStore {Expr : Type} (cache : List (String × Expr)) (key : String) (v : Expr) :
    List (String × Expr) :=
  (key, v) :: cache.filter (fun p => p.1 != key)

/-- `getAndStoreMatcherExpression` (lines 810-825): use the cached compiled
expression only when the matcher has no `eval()` and the cache holds the
source string; otherwise compile afresh — propagating compile errors — and
store the result into the cache.  Compilation
(`govaluate.NewEvaluableExpressionWithFunctions`, with the function table
folded in) is the abstract `compile` parameter. -/
def getAndStoreMatcherExpression {Expr : Type} (compile : String → Except String Expr)
    (hasEval : Bool) (expString : String) (cache : List (String × Expr)) :
    Except String (Expr × List (String × Expr)) :=
  match List.lookup expString cache with
  | some cached =>
    if !hasEval then Except.ok (cached, cache)
    else
      match compile expString with
      | Except.error m => Except.error m
      | Except.ok ex => Except.ok (ex, cacheStore cache expString ex)
  | none =>
    match compile expString with
    | Except.error m => Except.error m
    | Except.ok ex => Except.ok (ex, cacheStore cache expString ex)

/-- `enforceParameters` (lines 896-905): token lists standing for the
`rTokens`/`pTokens` index maps, plus the current request and policy
values. -/
structure EnforceParams : Type where
  rTokens : List String
  rVals : List GoValue
  pTokens : List String
  pVals : List String
deriving DecidableEq, Repr

/-- Lines 586-598: if the first request value is an `EnforceContext`, take
the section names from it and drop it from the request; otherwise use the
defaults `r`/`p`/`e`/`m`. -/
def ctxSplit (rvals : List GoValue) : EnforceContext × List GoValue :=
  match rvals with
  | GoValue.ctx c :: rest => (c, rest)
  | _ => (⟨"r", "p", "e", "m"⟩, rvals)

/-- Lines 600-605: the matcher source — the model's `m` assertion when the
custom matcher is empty (a missing assertion is a nil dereference panic),
else the custom matcher with comments stripped and accesses escaped. -/
def expStringOf (m : Model) (matcher : String) (mType : String) : Outcome String :=
  if matcher = "" then
    match modelGet m "m" mType with
    | some a => Outcome.ok a.value
    | none => Outcome.panicked nilDerefMsg
  else Outcome.ok (removeComments (escapeAssertion matcher))

/-- Lines 616-619: when JSON requests are accepted, rewrite the matcher
source through `requestJsonReplace` before anything else uses it. -/
def jsonReplaceStep (jg : String → String → String) (accept : Bool) (s : String)
    (rTokens : List String) (rvals : List GoValue) : Outcome String :=
  if accept then requestJsonReplace jg s rTokens rvals else Outcome.ok s

/-- Lines 692-705: normalize a matcher evaluation result to a match weight
(`matcherResults[policyIndex]`): `true` or a nonzero number gives 1,
`false` or zero gives 0, any other dynamic type is the
"matcher result should be bool, int or float" error. -/
def normalizeMatcherResult : GoValue → Except String Nat
  | GoValue.boolean b => Except.ok (if b then 1 else 0)
  | GoValue.num x => Except.ok (if x == 0 then 0 else 1)
  | _ => Except.error "matcher result should be bool, int or float"

/-- Lines 707-718: a tuple's effect from its `p_eft` field — `"allow"`,
`"deny"`, anything else indeterminate — defaulting to allow when the policy
assertion declares no `pType_eft` token.  `pv` is `parameters.pVals`, i.e.
the (possibly JSON-substituted) tuple; the index returned by `tokenIndex`
is always in range once the tuple arity check has passed. -/
def tupleEffect (pTokens : List String) (pType : String) (pv : List String) : Effect :=
  match tokenIndex pTokens (pType ++ "_eft") with
  | some j =>
    if pv.getD j "" = "allow" then Effect.allow
    else if pv.getD j "" = "deny" then Effect.deny
    else Effect.indeterminate
  | none => Effect.allow

/-- Lines 666-672 error text (the `%v` dump of the tuple is appended). -/
def policySizeErr (expected got : Nat) (pvals : List String) : String :=
  "invalid policy size: expected " ++ toString expected ++ ", got " ++ toString got ++
    ", pvals: [" ++ String.intercalate " " pvals ++ "]"

/-- Lines 644-648 error text (the `%v` dump of the request values is
elided; no claim inspects it). -/
def requestSizeErr (expected got : Nat) : String :=
  "invalid request size: expected " ++ toString expected ++ ", got " ++ toString got

/-- Sequence an `Outcome`-producing map over a list, stopping at the first
error or panic (the in-place update loop of lines 677-679). -/
def outcomeMapList (f : String → Outcome String) : List String → Outcome (List String)
  | [] => Outcome.ok []
  | a :: t =>
    match f a with
    | Outcome.ok b =>
      match outcomeMapList f t with
      | Outcome.ok bs => Outcome.ok (b :: bs)
      | Outcome.error m => Outcome.error m
      | Outcome.panicked m => Outcome.panicked m
    | Outcome.error m => Outcome.error m
    | Outcome.panicked m => Outcome.panicked m

/-- Lines 674-683: the per-tuple `parameters.pVals` — a copy of the tuple
with each field escaped and JSON-substituted when JSON requests are
accepted, the tuple itself otherwise. -/
def substitutePVals (jg : String → String → String) (accept : Bool)
    (rTokens : List String) (rvals : List GoValue) (pvals : List String) :
    Outcome (List String) :=
  if accept then
    outcomeMapList (fun p => requestJsonReplace jg (escapeAssertion p) rTokens rvals) pvals
  else Outcome.ok pvals

/-- The policy-iteration loop of `enforce` (lines 664-731).  `evalE` is the
compiled expression's `Eval`; `mergeEffects` is the effector's
`MergeEffects` (external to this source); `eValO` is
`e.model["e"][eType]`'s value, looked up at each merge call as in the
source (absent assertion: nil dereference panic).  `pEffs` and `mRes` are
the preallocated `policyEffects` and `matcherResults` arrays; `eff`/`ei`
carry the current `effect` and `explainIndex`.  Returns the final
`(effect, explainIndex)` or the first error/panic. -/
def enforceTuples {Expr : Type} (evalE : Expr → EnforceParams → Outcome GoValue)
    (mergeEffects : String → List Effect → List Nat → Nat → Nat → Except String (Effect × Int))
    (jg : String → String → String) (accept : Bool)
    (rTokens pTokens : List String) (rvals : List GoValue) (pType : String)
    (eValO : Option String) (ex : Expr) (policyLen : Nat) :
    List (List String) → Nat → Effect → Int → List Effect → List Nat → Outcome (Effect × Int)
  | [], _, eff, ei, _, _ => Outcome.ok (eff, ei)
  | pvals :: rest, idx, _eff, _ei, pEffs, mRes =>
    if pTokens.length != pvals.length then
      Outcome.error (policySizeErr pTokens.length pvals.length pvals)
    else
      match substitutePVals jg accept rTokens rvals pvals with
      | Outcome.error m => Outcome.error m
      | Outcome.panicked m => Outcome.panicked m
      | Outcome.ok pv =>
        match evalE ex (EnforceParams.mk rTokens rvals pTokens pv) with
        | Outcome.error m => Outcome.error m
        | Outcome.panicked m => Outcome.panicked m
        | Outcome.ok val =>
          match normalizeMatcherResult val with
          | Except.error m => Outcome.error m
          | Except.ok w =>
            let mRes1 := mRes.set idx w
            let pEffs1 := pEffs.set idx (tupleEffect pTokens pType pv)
            match eValO with
            | none => Outcome.panicked nilDerefMsg
            | some ev =>
              match mergeEffects ev pEffs1 mRes1 idx policyLen with
              | Except.error m => Outcome.error m
              | Except.ok (eff1, ei1) =>
                if eff1 != Effect.indeterminate then Outcome.ok (eff1, ei1)
                else enforceTuples evalE mergeEffects jg accept rTokens pTokens rvals pType
                  eValO ex policyLen rest (idx + 1) eff1 ei1 pEffs1 mRes1

/-- The policy-free branch of `enforce` (lines 732-760): refuse `eval()`
with an empty policy; evaluate once against empty policy values; assert the
result is a boolean (`result.(bool)` — a non-boolean result panics);
`true` collects an allow effect, `false` an indeterminate one; merge the
single `(effect, weight 1)` pair. -/
def enforceNoPolicy {Expr : Type} (evalE : Expr → EnforceParams → Outcome GoValue)
    (mergeEffects : String → List Effect → List Nat → Nat → Nat → Except String (Effect × Int))
    (hasEv : Bool) (policyCount : Nat) (rTokens pTokens : List String)
    (rvals : List GoValue) (eValO : Option String) (ex : Expr) : Outcome (Effect × Int) :=
  if hasEv && policyCount == 0 then
    Outcome.error "please make sure rule exists in policy when using eval() in matcher"
  else
    match evalE ex (EnforceParams.mk rTokens rvals pTokens (List.replicate pTokens.length "")) with
    | Outcome.error m => Outcome.error m
    | Outcome.panicked m => Outcome.panicked m
    | Outcome.ok val =>
      match val with
      | GoValue.boolean b =>
        match eValO with
        | none => Outcome.panicked nilDerefMsg
        | some ev =>
          match mergeEffects ev [if b then Effect.allow else Effect.indeterminate] [1] 0 1 with
          | Except.error m => Outcome.error m
          | Except.ok r => Outcome.ok r
      | _ => Outcome.panicked typeAssertMsg

/-- Lines 762-782: optionally record the matching tuple into the explain
slot (`explainIndex != -1 && len(policy) > explainIndex`; a negative index
other than `-1` would panic as a Go slice index), then turn the merged
effect into the boolean decision (`true` iff allow). -/
def finishStep (policy : List (List String)) (explains : Option (List String))
    (eff : Effect) (ei : Int) : Outcome Bool × Option (List String) :=
  match explains with
  | none => (Outcome.ok (eff == Effect.allow), none)
  | some ex0 =>
    if ei != (-1 : Int) && (policy.length : Int) > ei then
      if ei < 0 then (Outcome.panicked "runtime error: index out of range", some ex0)
      else (Outcome.ok (eff == Effect.allow), some (policy.getD ei.toNat []))
    else (Outcome.ok (eff == Effect.allow), some ex0)

/-- The body of `enforce` (lines 561-783), i.e. everything inside the
`defer`/`recover` wrapper: the disabled short-circuit, context resolution,
matcher-source selection, JSON substitution, compile-or-fetch, the request
arity check, and the two evaluation branches followed by the explain and
result steps.  The function table (built-ins, user functions, generated
`g` functions and the `eval` closure, lines 565-577 and 629-636) is folded
into the abstract `compile`/`evalE` parameters. -/
def enforceBody {Expr RM : Type} (compile : String → Except String Expr)
    (evalE : Expr → EnforceParams → Outcome GoValue)
    (mergeEffects : String → List Effect → List Nat → Nat → Nat → Except String (Effect × Int))
    (jg : String → String → String) (e : Enforcer Expr RM) (matcher : String)
    (explains : Option (List String)) (rvals0 : List GoValue) :
    Outcome Bool × Enforcer Expr RM × Option (List String) :=
  if e.enabled = false then (Outcome.ok true, e, explains) else
  match ctxSplit rvals0 with
  | (ctx, rvals) =>
    match expStringOf e.model matcher ctx.MType with
    | Outcome.error m => (Outcome.error m, e, explains)
    | Outcome.panicked m => (Outcome.panicked m, e, explains)
    | Outcome.ok expString0 =>
      match modelGet e.model "r" ctx.RType with
      | none => (Outcome.panicked nilDerefMsg, e, explains)
      | some rAst =>
        match modelGet e.model "p" ctx.PType with
        | none => (Outcome.panicked nilDerefMsg, e, explains)
        | some pAst =>
          match jsonReplaceStep jg e.acceptJsonRequest expString0 rAst.tokens rvals with
          | Outcome.error m => (Outcome.error m, e, explains)
          | Outcome.panicked m => (Outcome.panicked m, e, explains)
          | Outcome.ok expString =>
            match getAndStoreMatcherExpression compile (hasEvalStr expString) expString
                e.matcherMap with
            | Except.error m => (Outcome.error m, e, explains)
            | Except.ok (ex, cache2) =>
              if rAst.tokens.length != rvals.length then
                (Outcome.error (requestSizeErr rAst.tokens.length rvals.length),
                  { e with matcherMap := cache2 }, explains)
              else
                match
                  (if pAst.policy.length != 0 && strContains expString (ctx.PType ++ "_") then
                    enforceTuples evalE mergeEffects jg e.acceptJsonRequest rAst.tokens
                      pAst.tokens rvals ctx.PType
                      ((modelGet e.model "e" ctx.EType).map Assertion.value) ex
                      pAst.policy.length pAst.policy 0 Effect.allow 0
                      (List.replicate pAst.policy.length Effect.allow)
                      (List.replicate pAst.policy.length 0)
                  else
                    enforceNoPolicy evalE mergeEffects (hasEvalStr expString)
                      pAst.policy.length rAst.tokens pAst.tokens rvals
                      ((modelGet e.model "e" ctx.EType).map Assertion.value) ex) with
                | Outcome.error m => (Outcome.error m, { e with matcherMap := cache2 }, explains)
                | Outcome.panicked m =>
                  (Outcome.panicked m, { e with matcherMap := cache2 }, explains)
                | Outcome.ok (eff, ei) =>
                  match finishStep pAst.policy explains eff ei with
                  | (out, explains2) => (out, { e with matcherMap := cache2 }, explains2)

/-- `enforce` (line 555): the body wrapped by the deferred `recover` that
converts any panic into an error return (`fmt.Errorf("panic: %v...", r)`;
the stack dump is elided from the message). -/
def enforce {Expr RM : Type} (compile : String → Except String Expr)
    (evalE : Expr → EnforceParams → Outcome GoValue)
    (mergeEffects : String → List Effect → List Nat → Nat → Nat → Except String (Effect × Int))
    (jg : String → String → String) (e : Enforcer Expr RM) (matcher : String)
    (explains : Option (List String)) (rvals : List GoValue) :
    Except String Bool × Enforcer Expr RM × Option (List String) :=
  match enforceBody compile evalE mergeEffects jg e matcher explains rvals with
  | (Outcome.ok b, e1, ex1) => (Except.ok b, e1, ex1)
  | (Outcome.error m, e1, ex1) => (Except.error m, e1, ex1)
  | (Outcome.panicked m, e1, ex1) => (Except.error ("panic: " ++ m), e1, ex1)

/-- `Enforce` (lines 827-830): `enforce` with the model matcher and no
explain slot; returns the decision and the updated enforcer. -/
def Enforce {Expr RM : Type} (compile : String → Except String Expr)
    (evalE : Expr → EnforceParams → Outcome GoValue)
    (mergeEffects : String → List Effect → List Nat → Nat → Nat → Except String (Effect × Int))
    (jg : String → String → String) (e : Enforcer Expr RM) (rvals : List GoValue) :
    Except String Bool × Enforcer Expr RM :=
  match enforce compile evalE mergeEffects jg e "" none rvals with
  | (r, e1, _) => (r, e1)

/-- The accumulation loop of `BatchEnforce`: stop at the first error,
returning the results gathered so far together with that error. -/
def batchLoop {Expr RM : Type} (compile : String → Except String Expr)
    (evalE : Expr → EnforceParams → Outcome GoValue)
    (mergeEffects : String → List Effect → List Nat → Nat → Nat → Except String (Effect × Int))
    (jg : String → String → String) (e : Enforcer Expr RM) (acc : List Bool) :
    List (List GoValue) → List Bool × Option String × Enforcer Expr RM
  | [] => (acc, none, e)
  | req :: rest =>
    match enforce compile evalE mergeEffects jg e "" none req with
    | (Except.ok b, e1, _) => batchLoop compile evalE mergeEffects jg e1 (acc ++ [b]) rest
    | (Except.error m, e1, _) => (acc, some m, e1)

/-- `BatchEnforce` (lines 851-862): run `enforce` over each request with
the model matcher and no explain slot. -/
def BatchEnforce {Expr RM : Type} (compile : String → Except String Expr)
    (evalE : Expr → EnforceParams → Outcome GoValue)
    (mergeEffects : String → List Effect → List Nat → Nat → Nat → Except String (Effect × Int))
    (jg : String → String → String) (e : Enforcer Expr RM)
    (requests : List (List GoValue)) : List Bool × Option String × Enforcer Expr RM :=
  batchLoop compile evalE mergeEffects jg e [] requests

/-- `model.ClearPolicy` on one assertion map: drop the stored tuples. -/
def clearPolicySec (am : AssertionMap) : AssertionMap :=
  am.map (fun kv => (kv.1, { kv.2 with policy := [] }))

/-- `model.Model.ClearPolicy`: clear the policies of the `p` and `g`
sections. -/
def Model.clearPolicy (m : Model) : Model :=
  m.map (fun s => if s.1 == "p" || s.1 == "g" then (s.1, clearPolicySec s.2) else s)

/-- `model.Model.Copy`: a deep copy.  In the pure embedding values cannot
alias, so the copy is the identity on values; what matters for `LoadPolicy`
is that all subsequent mutations happen on the copy, which the functional
translation expresses by never rebinding the old model. -/
def Model.copy (m : Model) : Model := m

/-- `BuildRoleLinks` (lines 522-532): clear the role managers, then build
the links from the enforcer's current model.  Role-manager state is the
abstract `RM`; `clearRM` and `buildLinks` return the mutated state next to
the optional error, mirroring in-place mutation plus error return. -/
def buildRoleLinksE {Expr RM : Type} (clearRM : RM → RM × Option String)
    (buildLinks : Model → RM → RM × Option String) (e : Enforcer Expr RM) :
    Enforcer Expr RM × Option String :=
  match clearRM e.rm with
  | (rm1, some msg) => ({ e with rm := rm1 }, some msg)
  | (rm1, none) =>
    match buildLinks e.model rm1 with
    | (rm2, berr) => ({ e with rm := rm2 }, berr)

/-- The tail of `LoadPolicy` after the adapter step (lines 367-389): sort
by subject hierarchy, sort by priority, then — when auto-building is on —
clear the role managers and rebuild the links from the new model, and only
then install the new model.  On a failure after the role managers were
touched (`needToRebuild`), the deferred handler rebuilds the links from the
old model, ignoring its error. -/
def loadPolicyAfterAdapter {Expr RM : Type} (sortSubj sortPrio : Model → Except String Model)
    (clearRM : RM → RM × Option String) (buildLinks : Model → RM → RM × Option String)
    (e0 : Enforcer Expr RM) (m1 : Model) : Enforcer Expr RM × Option String :=
  match sortSubj m1 with
  | Except.error msg => (e0, some msg)
  | Except.ok m2 =>
    match sortPrio m2 with
    | Except.error msg => (e0, some msg)
    | Except.ok m3 =>
      if e0.autoBuildRoleLinks then
        match clearRM e0.rm with
        | (rm1, some msg) =>
          ((buildRoleLinksE clearRM buildLinks { e0 with rm := rm1 }).1, some msg)
        | (rm1, none) =>
          match buildLinks m3 rm1 with
          | (rm2, some msg) =>
            ((buildRoleLinksE clearRM buildLinks { e0 with rm := rm2 }).1, some msg)
          | (rm2, none) => ({ e0 with model := m3, rm := rm2 }, none)
      else ({ e0 with model := m3 }, none)

/-- `LoadPolicy` (lines 345-390): invalidate the matcher cache, build the
new policy on a cleared copy of the model, load it through the adapter —
tolerating only the empty-file-path error — and hand over to
`loadPolicyAfterAdapter`.  The adapter (`persist.Adapter.LoadPolicy`,
external) returns the model it populated next to an optional error, again
mirroring in-place mutation plus error return. -/
def LoadPolicy {Expr RM : Type} (adapterLoad : Model → Model × Option String)
    (sortSubj sortPrio : Model → Except String Model)
    (clearRM : RM → RM × Option String) (buildLinks : Model → RM → RM × Option String)
    (e : Enforcer Expr RM) : Enforcer Expr RM × Option String :=
  match adapterLoad (Model.clearPolicy (Model.copy e.model)) with
  | (m1, some msg) =>
    if msg != "invalid file path, file path cannot be empty" then
      ({ e with matcherMap := [] }, some msg)
    else
      loadPolicyAfterAdapter sortSubj sortPrio clearRM buildLinks
        { e with matcherMap := [] } m1
  | (m1, none) =>
    loadPolicyAfterAdapter sortSubj sortPrio clearRM buildLinks
      { e with matcherMap := [] } m1

/-- The tail of one `enforceTuples` iteration once tuple `idx`'s match
weight `w` and effect `E` are known: store both into the arrays, call
`MergeEffects`, and either break on a definitive effect or recurse (the
tail of lines 707-730).  Used to state what the loop does with the
normalized weight and the derived effect. -/
def tupleStepRest {Expr : Type} (evalE : Expr → EnforceParams → Outcome GoValue)
    (mergeEffects : String → List Effect → List Nat → Nat → Nat → Except String (Effect × Int))
    (jg : String → String → String) (accept : Bool) (rTokens pTokens : List String)
    (rvals : List GoValue) (pType ev : String) (ex : Expr) (policyLen : Nat)
    (rest : List (List String)) (idx : Nat) (pEffs : List Effect) (mRes : List Nat)
    (E : Effect) (w : Nat) : Outcome (Effect × Int) :=
  match mergeEffects ev (pEffs.set idx E) (mRes.set idx w) idx policyLen with
  | Except.error m => Outcome.error m
  | Except.ok (eff1, ei1) =>
    if eff1 != Effect.indeterminate then Outcome.ok (eff1, ei1)
    else enforceTuples evalE mergeEffects jg accept rTokens pTokens rvals pType (some ev) ex
      policyLen rest (idx + 1) eff1 ei1 (pEffs.set idx E) (mRes.set idx w)

/-- Claim C3: after `EnableEnforce(false)` every request returns `true`
without evaluating the matcher or iterating any policy tuple — `enforce`
returns `(true, nil)` immediately (lines 561-564), for every compiler,
evaluator, effector, request and matcher, leaving the enforcer state and
the explain slot untouched. -/
theorem disabled_enforcer_fail_open {Expr RM : Type}
    (compile : String → Except String Expr)
    (evalE : Expr → EnforceParams → Outcome GoValue)
    (mergeEffects : String → List Effect → List Nat → Nat → Nat → Except String (Effect × Int))
    (jg : String → String → String) (e : Enforcer Expr RM) (matcher : String)
    (explains : Option (List String)) (rvals : List GoValue)
    (h : e.enabled = false) :
    enforce compile evalE mergeEffects jg e matcher explains rvals =
      (Except.ok true, e, explains) := by
  unfold enforce enforceBody
  simp [h]

/-- Witness for C3: a disabled enforcer with a non-empty policy and an
evaluator that would reject the request still answers `true`. -/
theorem disabled_enforcer_fail_open_witness :
    (enforce (fun _ => Except.ok ()) (fun _ _ => Outcome.ok (GoValue.boolean false))
        (fun _ _ _ _ _ => Except.ok (Effect.deny, -1)) (fun _ _ => "")
        (⟨[("r", [("r", ⟨["r_sub"], "sub", []⟩)]),
           ("p", [("p", ⟨["p_sub"], "sub", [["alice"]]⟩)]),
           ("e", [("e", ⟨[], "some(where (p_eft == allow))", []⟩)]),
           ("m", [("m", ⟨[], "r_sub == p_sub", []⟩)])], [], (), false, true, false⟩ :
          Enforcer Unit Unit) "" none [GoValue.str "bob"]).1 = Except.ok true := by
  rw [disabled_enforcer_fail_open (fun _ => Except.ok ())
    (fun _ _ => Outcome.ok (GoValue.boolean false))
    (fun _ _ _ _ _ => Except.ok (Effect.deny, -1)) (fun _ _ => "") _ "" none
    [GoValue.str "bob"] rfl]

/-- Claim C8: every panic raised inside a decision is caught by the
deferred `recover` at the top of `enforce` (lines 556-560) and surfaced as
an error return carrying the panic diagnostic, while ordinary results and
errors pass through unchanged — so `enforce` always returns a value of the
error-or-boolean type and never propagates a panic. -/
theorem enforce_recovers_panics {Expr RM : Type}
    (compile : String → Except String Expr)
    (evalE : Expr → EnforceParams → Outcome GoValue)
    (mergeEffects : String → List Effect → List Nat → Nat → Nat → Except String (Effect × Int))
    (jg : String → String → String) (e : Enforcer Expr RM) (matcher : String)
    (explains : Option (List String)) (rvals : List GoValue) :
    (∀ m e1 ex1, enforceBody compile evalE mergeEffects jg e matcher explains rvals =
        (Outcome.panicked m, e1, ex1) →
      enforce compile evalE mergeEffects jg e matcher explains rvals =
        (Except.error ("panic: " ++ m), e1, ex1)) ∧
    (∀ b e1 ex1, enforceBody compile evalE mergeEffects jg e matcher explains rvals =
        (Outcome.ok b, e1, ex1) →
      enforce compile evalE mergeEffects jg e matcher explains rvals =
        (Except.ok b, e1, ex1)) ∧
    (∀ m e1 ex1, enforceBody compile evalE mergeEffects jg e matcher explains rvals =
        (Outcome.error m, e1, ex1) →
      enforce compile evalE mergeEffects jg e matcher explains rvals =
        (Except.error m, e1, ex1)) := by
  refine ⟨?_, ?_, ?_⟩
  all_goals intro x e1 ex1 h
  all_goals unfold enforce
  all_goals rw [h]

/-- Witness for C8: an enforcer whose model has no `m` assertion panics
with a nil dereference inside the body, and `enforce` turns that panic
into an error return, leaving the state usable. -/
theorem enforce_recovers_panics_witness :
    enforce (fun _ => Except.ok ()) (fun _ _ => Outcome.ok GoValue.other)
        (fun _ _ _ _ _ => Except.ok (Effect.allow, -1)) (fun _ _ => "")
        (⟨[], [], (), true, true, false⟩ : Enforcer Unit Unit) "" none [] =
      (Except.error ("panic: " ++ nilDerefMsg), ⟨[], [], (), true, true, false⟩, none) := by
  exact (enforce_recovers_panics (fun _ => Except.ok ()) (fun _ _ => Outcome.ok GoValue.other)
    (fun _ _ _ _ _ => Except.ok (Effect.allow, -1)) (fun _ _ => "")
    ⟨[], [], (), true, true, false⟩ "" none []).1 nilDerefMsg _ none rfl

/-- Counterexample for C4: an `eval()`-bearing matcher source IS retained
in the matcher cache — `getAndStoreMatcherExpression` stores the freshly
compiled expression unconditionally (line 822), so after the call the
cache holds an entry for the `eval()`-bearing source, contradicting
"nor retains it there". -/
theorem eval_matcher_cache_cex :
    hasEvalStr "eval(p_sub_rule)" = true ∧
    getAndStoreMatcherExpression (fun s => (Except.ok ("c" ++ s) : Except String String))
        (hasEvalStr "eval(p_sub_rule)") "eval(p_sub_rule)" [] =
      Except.ok ("ceval(p_sub_rule)", [("eval(p_sub_rule)", "ceval(p_sub_rule)")]) ∧
    (List.lookup "eval(p_sub_rule)" [("eval(p_sub_rule)", "ceval(p_sub_rule)")]).isSome
      = true := by
  exact ⟨rfl, rfl, rfl⟩

/-- Claim C4 (amended): for every matcher source containing an `eval()`
call, `getAndStoreMatcherExpression` never returns the cached expression —
it compiles the source afresh on every call (propagating compile errors) —
but it does store the freshly compiled expression into the cache. -/
theorem eval_matcher_fresh_compile_but_stored {Expr : Type}
    (compile : String → Except String Expr) (s : String)
    (cache : List (String × Expr)) (h : hasEvalStr s = true) :
    (∀ m, compile s = Except.error m →
      getAndStoreMatcherExpression compile (hasEvalStr s) s cache = Except.error m) ∧
    (∀ ex, compile s = Except.ok ex →
      getAndStoreMatcherExpression compile (hasEvalStr s) s cache =
        Except.ok (ex, cacheStore cache s ex)) := by
  rw [h]
  constructor
  all_goals intro x hx
  all_goals cases hl : List.lookup s cache
  all_goals simp [getAndStoreMatcherExpression, hl, hx]

/-- Witness for C4: a concrete `eval()`-bearing source with a non-empty
cache compiles afresh and is stored in front of the existing entries. -/
theorem eval_matcher_fresh_compile_but_stored_witness :
    getAndStoreMatcherExpression (fun s => (Except.ok ("c" ++ s) : Except String String))
        (hasEvalStr "eval(p2_sub_rule) || r_sub == p_sub") "eval(p2_sub_rule) || r_sub == p_sub"
        [("r_sub == p_sub", "z")] =
      Except.ok ("ceval(p2_sub_rule) || r_sub == p_sub",
        [("eval(p2_sub_rule) || r_sub == p_sub", "ceval(p2_sub_rule) || r_sub == p_sub"),
         ("r_sub == p_sub", "z")]) := by
  exact (eval_matcher_fresh_compile_but_stored (fun s => Except.ok ("c" ++ s))
    "eval(p2_sub_rule) || r_sub == p_sub" [("r_sub == p_sub", "z")] rfl).2
    "ceval(p2_sub_rule) || r_sub == p_sub" rfl

/-- Counterexample for C5: NOT every occurrence of a request-object access
is substituted.  `requestJsonReplace` uses `FindStringSubmatch`, which
yields only the leftmost match of a pattern without capture groups, so in a
matcher with two distinct accesses (`r_sub.Aa` and `r_obj.Bb`, both with
declared request tokens and string request values) only the first is
replaced and the second survives in the output verbatim. -/
theorem json_replace_not_all_occurrences_cex :
    requestJsonReplace (fun _ _ => "1") "r_sub.Aa > 18 && r_obj.Bb < 9" ["r_sub", "r_obj"]
        [GoValue.str "x", GoValue.str "y"] = Outcome.ok "1 > 18 && r_obj.Bb < 9" ∧
    strContains "1 > 18 && r_obj.Bb < 9" "r_obj.Bb" = true ∧
    tokenIndex ["r_sub", "r_obj"] "r_obj" = some 1 := by
  exact ⟨rfl, rfl, rfl⟩

/-- Claim C5 (amended): only the leftmost `requestObjectRegex` match in the
matcher source is substituted (all textual occurrences of that one matched
substring are replaced by the JSON-extracted literal, quoted unless
numeric); the substitution is a deterministic pure function of the source
string, the request tokens and the request values, and it is applied to
the matcher source before the compilation-cache lookup. -/
theorem json_replace_leftmost_before_lookup :
    (∀ (jg : String → String → String) (str : String) (rTokens : List String)
        (rvals : List GoValue), findReqObj str.toList = none →
      requestJsonReplace jg str rTokens rvals = Outcome.ok str) ∧
    (∀ (jg : String → String → String) (str : String) (rTokens : List String)
        (rvals : List GoValue) (m key path : List Char) (js : String),
      findReqObj str.toList = some (m, key, path) →
      rvals.get? ((tokenIndex rTokens (String.mk key)).getD 0) = some (GoValue.str js) →
      requestJsonReplace jg str rTokens rvals =
        Outcome.ok (strReplace str (String.mk m)
          (if isNumericStr (jg js (String.mk path)) then jg js (String.mk path)
           else "\"" ++ jg js (String.mk path) ++ "\""))) ∧
    (∀ (Expr RM : Type) (compile : String → Except String Expr)
        (evalE : Expr → EnforceParams → Outcome GoValue)
        (mergeEffects : String → List Effect → List Nat → Nat → Nat →
          Except String (Effect × Int))
        (jg : String → String → String) (e : Enforcer Expr RM) (rvals : List GoValue)
        (mAst rAst pAst : Assertion) (s2 msg : String) (explains : Option (List String)),
      e.enabled = true → ctxSplit rvals = (⟨"r", "p", "e", "m"⟩, rvals) →
      modelGet e.model "m" "m" = some mAst → modelGet e.model "r" "r" = some rAst →
      modelGet e.model "p" "p" = some pAst → e.acceptJsonRequest = true →
      requestJsonReplace jg mAst.value rAst.tokens rvals = Outcome.ok s2 →
      getAndStoreMatcherExpression compile (hasEvalStr s2) s2 e.matcherMap =
        Except.error msg →
      enforce compile evalE mergeEffects jg e "" explains rvals =
        (Except.error msg, e, explains)) := by
  refine ⟨?_, ?_, ?_⟩
  · intro jg str rTokens rvals h
    unfold requestJsonReplace
    rw [h]
  · intro jg str rTokens rvals m key path js hfind hval
    unfold requestJsonReplace
    rw [hfind]
    simp only [hval]
  · intro Expr RM compile evalE mergeEffects jg e rvals mAst rAst pAst s2 msg explains
      hen hctx hm hr hp haccept hjson hcache
    unfold enforce enforceBody
    rw [hctx]
    simp [hen, expStringOf, hm, hr, hp, jsonReplaceStep, haccept]
    rw [hjson]
    simp [hcache]

/-- Witness for C5: a single-access matcher source is substituted with the
numeric gjson extraction before anything else happens. -/
theorem json_replace_leftmost_before_lookup_witness :
    requestJsonReplace (fun _ _ => "21") "r_sub.Aa > 18" ["r_sub"] [GoValue.str "j"] =
      Outcome.ok "21 > 18" := by
  exact json_replace_leftmost_before_lookup.2.1 (fun _ _ => "21") "r_sub.Aa > 18" ["r_sub"]
    [GoValue.str "j"] ("r_sub.Aa".toList) ("r_sub".toList) ("Aa".toList) "j" rfl rfl

/-- Claim C7: a single request and the one-element batch agree —
`BatchEnforce` runs the same `enforce` call, so it returns the singleton of
`Enforce`'s boolean when that call succeeds, and stops with the same error
and no result when it fails. -/
theorem single_enforce_eq_batch_singleton {Expr RM : Type}
    (compile : String → Except String Expr)
    (evalE : Expr → EnforceParams → Outcome GoValue)
    (mergeEffects : String → List Effect → List Nat → Nat → Nat → Except String (Effect × Int))
    (jg : String → String → String) (e : Enforcer Expr RM) (req : List GoValue) :
    (∀ b e1, Enforce compile evalE mergeEffects jg e req = (Except.ok b, e1) →
      BatchEnforce compile evalE mergeEffects jg e [req] = ([b], none, e1)) ∧
    (∀ m e1, Enforce compile evalE mergeEffects jg e req = (Except.error m, e1) →
      BatchEnforce compile evalE mergeEffects jg e [req] = ([], some m, e1)) := by
  constructor
  · intro b e1 h
    unfold Enforce at h
    unfold BatchEnforce batchLoop
    rcases h2 : enforce compile evalE mergeEffects jg e "" none req with ⟨r, e2, ex2⟩
    rw [h2] at h
    cases r with
    | ok b2 =>
      simp only [Except.ok.injEq, Prod.mk.injEq] at h
      obtain ⟨hb, he⟩ := h
      subst hb he
      simp [batchLoop]
    | error m => simp at h
  · intro m e1 h
    unfold Enforce at h
    unfold BatchEnforce batchLoop
    rcases h2 : enforce compile evalE mergeEffects jg e "" none req with ⟨r, e2, ex2⟩
    rw [h2] at h
    cases r with
    | ok b2 => simp at h
    | error m2 =>
      simp only [Except.error.injEq, Prod.mk.injEq] at h
      obtain ⟨hm, he⟩ := h
      subst hm he
      rfl

/-- Witness for C7: with a disabled enforcer both the direct call and the
one-element batch answer `true`. -/
theorem single_enforce_eq_batch_singleton_witness :
    BatchEnforce (fun _ => Except.ok ()) (fun _ _ => Outcome.ok GoValue.other)
        (fun _ _ _ _ _ => Except.ok (Effect.deny, -1)) (fun _ _ => "")
        (⟨[], [], (), false, true, false⟩ : Enforcer Unit Unit) [[GoValue.str "bob"]] =
      ([true], none, ⟨[], [], (), false, true, false⟩) := by
  exact (single_enforce_eq_batch_singleton (fun _ => Except.ok ())
    (fun _ _ => Outcome.ok GoValue.other) (fun _ _ _ _ _ => Except.ok (Effect.deny, -1))
    (fun _ _ => "") ⟨[], [], (), false, true, false⟩ [GoValue.str "bob"]).1 true
    ⟨[], [], (), false, true, false⟩ rfl

/-- Claim C1: in the policy-iteration path, each tuple's matcher result is
normalized to a match weight stored in `matcherResults` — boolean `true` or
a nonzero number gives weight 1, boolean `false` or zero gives weight 0 —
and a result of any other dynamic type aborts the loop with the
"matcher result should be bool, int or float" error instead of a weight
(lines 685-705), for every loop state, evaluator and effector; and any
error produced by the iteration loop is returned by `enforce` as that
error instead of a boolean decision (last conjunct). -/
theorem enforce_tuple_weight_normalization {Expr : Type}
    (evalE : Expr → EnforceParams → Outcome GoValue)
    (mergeEffects : String → List Effect → List Nat → Nat → Nat → Except String (Effect × Int))
    (jg : String → String → String) (accept : Bool) (rTokens pTokens : List String)
    (rvals : List GoValue) (pType ev : String) (ex : Expr) (plen : Nat)
    (pvals pv : List String) (rest : List (List String)) (idx : Nat) (eff0 : Effect)
    (ei0 : Int) (pEffs : List Effect) (mRes : List Nat) (val : GoValue)
    (hlen : pTokens.length = pvals.length)
    (hsub : substitutePVals jg accept rTokens rvals pvals = Outcome.ok pv)
    (hev : evalE ex (EnforceParams.mk rTokens rvals pTokens pv) = Outcome.ok val) :
    (val = GoValue.boolean true →
      enforceTuples evalE mergeEffects jg accept rTokens pTokens rvals pType (some ev) ex plen
          (pvals :: rest) idx eff0 ei0 pEffs mRes =
        tupleStepRest evalE mergeEffects jg accept rTokens pTokens rvals pType ev ex plen
          rest idx pEffs mRes (tupleEffect pTokens pType pv) 1) ∧
    (val = GoValue.boolean false →
      enforceTuples evalE mergeEffects jg accept rTokens pTokens rvals pType (some ev) ex plen
          (pvals :: rest) idx eff0 ei0 pEffs mRes =
        tupleStepRest evalE mergeEffects jg accept rTokens pTokens rvals pType ev ex plen
          rest idx pEffs mRes (tupleEffect pTokens pType pv) 0) ∧
    (∀ x : Int, ¬(x = 0) → val = GoValue.num x →
      enforceTuples evalE mergeEffects jg accept rTokens pTokens rvals pType (some ev) ex plen
          (pvals :: rest) idx eff0 ei0 pEffs mRes =
        tupleStepRest evalE mergeEffects jg accept rTokens pTokens rvals pType ev ex plen
          rest idx pEffs mRes (tupleEffect pTokens pType pv) 1) ∧
    (val = GoValue.num 0 →
      enforceTuples evalE mergeEffects jg accept rTokens pTokens rvals pType (some ev) ex plen
          (pvals :: rest) idx eff0 ei0 pEffs mRes =
        tupleStepRest evalE mergeEffects jg accept rTokens pTokens rvals pType ev ex plen
          rest idx pEffs mRes (tupleEffect pTokens pType pv) 0) ∧
    ((∀ b, ¬(val = GoValue.boolean b)) → (∀ x, ¬(val = GoValue.num x)) →
      enforceTuples evalE mergeEffects jg accept rTokens pTokens rvals pType (some ev) ex plen
          (pvals :: rest) idx eff0 ei0 pEffs mRes =
        Outcome.error "matcher result should be bool, int or float") ∧
    (∀ (RM : Type) (compile : String → Except String Expr) (e : Enforcer Expr RM)
        (rvals2 : List GoValue) (mAst rAst pAst : Assertion) (s2 : String) (ex2 : Expr)
        (cache2 : List (String × Expr)) (m : String),
      e.enabled = true → ctxSplit rvals2 = (⟨"r", "p", "e", "m"⟩, rvals2) →
      modelGet e.model "m" "m" = some mAst → modelGet e.model "r" "r" = some rAst →
      modelGet e.model "p" "p" = some pAst →
      jsonReplaceStep jg e.acceptJsonRequest mAst.value rAst.tokens rvals2 = Outcome.ok s2 →
      getAndStoreMatcherExpression compile (hasEvalStr s2) s2 e.matcherMap =
        Except.ok (ex2, cache2) →
      rAst.tokens.length = rvals2.length →
      (pAst.policy.length != 0 && strContains s2 ("p" ++ "_")) = true →
      enforceTuples evalE mergeEffects jg e.acceptJsonRequest rAst.tokens pAst.tokens rvals2
          "p" (Option.map Assertion.value (modelGet e.model "e" "e")) ex2 pAst.policy.length
          pAst.policy 0 Effect.allow 0 (List.replicate pAst.policy.length Effect.allow)
          (List.replicate pAst.policy.length 0) =
        Outcome.error m →
      enforce compile evalE mergeEffects jg e "" none rvals2 =
        (Except.error m, { e with matcherMap := cache2 }, none)) := by
  refine ⟨?_, ?_, ?_, ?_, ?_, ?_⟩
  · intro hv
    subst hv
    simp [enforceTuples, hlen, hsub, hev, normalizeMatcherResult, tupleStepRest]
  · intro hv
    subst hv
    simp [enforceTuples, hlen, hsub, hev, normalizeMatcherResult, tupleStepRest]
  · intro x hx hv
    subst hv
    simp [enforceTuples, hlen, hsub, hev, normalizeMatcherResult, hx, tupleStepRest]
  · intro hv
    subst hv
    simp [enforceTuples, hlen, hsub, hev, normalizeMatcherResult, tupleStepRest]
  · intro hb hx
    cases val with
    | boolean b => exact absurd rfl (hb b)
    | num x => exact absurd rfl (hx x)
    | str s => simp [enforceTuples, hlen, hsub, hev, normalizeMatcherResult]
    | ctx c => simp [enforceTuples, hlen, hsub, hev, normalizeMatcherResult]
    | other => simp [enforceTuples, hlen, hsub, hev, normalizeMatcherResult]
  · intro RM compile e rvals2 mAst rAst pAst s2 ex2 cache2 m hen hctx hm hr hp hjson hcache
      harity hbranch htup
    rw [show ("p" ++ "_" : String) = "p_" from rfl] at hbranch
    simp only [Bool.and_eq_true, bne_iff_ne, ne_eq, List.length_eq_zero] at hbranch
    obtain ⟨hb1, hb2⟩ := hbranch
    unfold enforce enforceBody
    rw [hctx]
    simp [hen, expStringOf, hm, hr, hp]
    rw [hjson]
    simp [hcache, harity, hb1, hb2, htup]

/-- Witness for C1: a boolean `true` matcher result on a concrete one-tuple
loop yields weight 1 and the merged allow decision. -/
theorem enforce_tuple_weight_normalization_witness :
    enforceTuples (fun (_ : Unit) _ => Outcome.ok (GoValue.boolean true))
        (fun _ _ _ _ _ => Except.ok (Effect.allow, 0)) (fun _ _ => "") false
        ["r_sub"] ["p_sub"] [GoValue.str "alice"] "p" (some "some(where (p_eft == allow))")
        () 1 [["alice"]] 0 Effect.allow 0 [Effect.allow] [0] =
      Outcome.ok (Effect.allow, 0) := by
  exact (enforce_tuple_weight_normalization (fun _ _ => Outcome.ok (GoValue.boolean true))
    (fun _ _ _ _ _ => Except.ok (Effect.allow, 0)) (fun _ _ => "") false
    ["r_sub"] ["p_sub"] [GoValue.str "alice"] "p" "some(where (p_eft == allow))" () 1
    ["alice"] ["alice"] [] 0 Effect.allow 0 [Effect.allow] [0] (GoValue.boolean true)
    rfl rfl rfl).1 rfl

/-- Claim C2: in the policy-iteration path, each tuple's effect stored in
`policyEffects` is derived from its `p_eft` field when the policy assertion
declares a `pType_eft` token — the literal `"allow"` gives Allow, `"deny"`
gives Deny, anything else Indeterminate — and is Allow when no such token
is declared (lines 707-718), for every loop state, evaluator and
effector. -/
theorem enforce_tuple_effect_derivation {Expr : Type}
    (evalE : Expr → EnforceParams → Outcome GoValue)
    (mergeEffects : String → List Effect → List Nat → Nat → Nat → Except String (Effect × Int))
    (jg : String → String → String) (accept : Bool) (rTokens pTokens : List String)
    (rvals : List GoValue) (pType ev : String) (ex : Expr) (plen : Nat)
    (pvals pv : List String) (rest : List (List String)) (idx : Nat) (eff0 : Effect)
    (ei0 : Int) (pEffs : List Effect) (mRes : List Nat) (val : GoValue) (w : Nat)
    (hlen : pTokens.length = pvals.length)
    (hsub : substitutePVals jg accept rTokens rvals pvals = Outcome.ok pv)
    (hev : evalE ex (EnforceParams.mk rTokens rvals pTokens pv) = Outcome.ok val)
    (hw : normalizeMatcherResult val = Except.ok w) :
    (tokenIndex pTokens (pType ++ "_eft") = none →
      enforceTuples evalE mergeEffects jg accept rTokens pTokens rvals pType (some ev) ex plen
          (pvals :: rest) idx eff0 ei0 pEffs mRes =
        tupleStepRest evalE mergeEffects jg accept rTokens pTokens rvals pType ev ex plen
          rest idx pEffs mRes Effect.allow w) ∧
    (∀ j, tokenIndex pTokens (pType ++ "_eft") = some j →
      ((pv.getD j "" = "allow" →
        enforceTuples evalE mergeEffects jg accept rTokens pTokens rvals pType (some ev) ex plen
            (pvals :: rest) idx eff0 ei0 pEffs mRes =
          tupleStepRest evalE mergeEffects jg accept rTokens pTokens rvals pType ev ex plen
            rest idx pEffs mRes Effect.allow w) ∧
       (pv.getD j "" = "deny" →
        enforceTuples evalE mergeEffects jg accept rTokens pTokens rvals pType (some ev) ex plen
            (pvals :: rest) idx eff0 ei0 pEffs mRes =
          tupleStepRest evalE mergeEffects jg accept rTokens pTokens rvals pType ev ex plen
            rest idx pEffs mRes Effect.deny w) ∧
       (¬(pv.getD j "" = "allow") → ¬(pv.getD j "" = "deny") →
        enforceTuples evalE mergeEffects jg accept rTokens pTokens rvals pType (some ev) ex plen
            (pvals :: rest) idx eff0 ei0 pEffs mRes =
          tupleStepRest evalE mergeEffects jg accept rTokens pTokens rvals pType ev ex plen
            rest idx pEffs mRes Effect.indeterminate w))) := by
  constructor
  · intro ht
    simp [enforceTuples, hlen, hsub, hev, hw, tupleEffect, ht, tupleStepRest]
  · intro j ht
    refine ⟨?_, ?_, ?_⟩
    · intro hval
      simp only [List.getD_eq_getElem?_getD] at hval
      simp [enforceTuples, hlen, hsub, hev, hw, tupleEffect, ht, hval, tupleStepRest]
    · intro hval
      simp only [List.getD_eq_getElem?_getD] at hval
      simp [enforceTuples, hlen, hsub, hev, hw, tupleEffect, ht, hval, tupleStepRest]
    · intro h1 h2
      simp only [List.getD_eq_getElem?_getD] at h1 h2
      simp [enforceTuples, hlen, hsub, hev, hw, tupleEffect, ht, h1, h2, tupleStepRest]

/-- Witness for C2: a concrete tuple carrying `p_eft = "deny"` produces the
Deny effect at the merge step. -/
theorem enforce_tuple_effect_derivation_witness :
    enforceTuples (fun (_ : Unit) _ => Outcome.ok (GoValue.boolean true))
        (fun _ _ _ _ _ => Except.ok (Effect.deny, 0)) (fun _ _ => "") false
        ["r_sub"] ["p_sub", "p_eft"] [GoValue.str "alice"] "p" (some "!some(where (p_eft == deny))")
        () 1 [["alice", "deny"]] 0 Effect.allow 0 [Effect.allow] [0] =
      Outcome.ok (Effect.deny, 0) := by
  exact ((enforce_tuple_effect_derivation (fun _ _ => Outcome.ok (GoValue.boolean true))
    (fun _ _ _ _ _ => Except.ok (Effect.deny, 0)) (fun _ _ => "") false
    ["r_sub"] ["p_sub", "p_eft"] [GoValue.str "alice"] "p" "!some(where (p_eft == deny))" () 1
    ["alice", "deny"] ["alice", "deny"] [] 0 Effect.allow 0 [Effect.allow] [0]
    (GoValue.boolean true) 1 rfl rfl rfl rfl).2 1 rfl).2.1 rfl

/-- Claim C10: in the policy-free evaluation path — taken when the policy
is empty or the matcher source lacks the `pType_` prefix — the matcher
result must be a boolean: `true` feeds an Allow effect and `false` an
Indeterminate effect (with weight 1) into the merge, while any non-boolean
result trips the `result.(bool)` type-assertion panic, which the recovered
`enforce` surfaces as an error instead of a boolean decision
(lines 732-760 with lines 555-560). -/
theorem no_policy_branch_bool_assertion {Expr RM : Type}
    (compile : String → Except String Expr)
    (evalE : Expr → EnforceParams → Outcome GoValue)
    (mergeEffects : String → List Effect → List Nat → Nat → Nat → Except String (Effect × Int))
    (jg : String → String → String) (e : Enforcer Expr RM) (rvals : List GoValue)
    (mAst rAst pAst eAst : Assertion) (s2 : String) (ex : Expr)
    (cache2 : List (String × Expr)) (val : GoValue)
    (hen : e.enabled = true)
    (hctx : ctxSplit rvals = (⟨"r", "p", "e", "m"⟩, rvals))
    (hm : modelGet e.model "m" "m" = some mAst)
    (hr : modelGet e.model "r" "r" = some rAst)
    (hp : modelGet e.model "p" "p" = some pAst)
    (he : modelGet e.model "e" "e" = some eAst)
    (hjson : jsonReplaceStep jg e.acceptJsonRequest mAst.value rAst.tokens rvals =
      Outcome.ok s2)
    (hcache : getAndStoreMatcherExpression compile (hasEvalStr s2) s2 e.matcherMap =
      Except.ok (ex, cache2))
    (harity : rAst.tokens.length = rvals.length)
    (hbranch : (pAst.policy.length != 0 && strContains s2 ("p" ++ "_")) = false)
    (hguard : (hasEvalStr s2 && pAst.policy.length == 0) = false)
    (hv : evalE ex (EnforceParams.mk rAst.tokens rvals pAst.tokens
      (List.replicate pAst.tokens.length "")) = Outcome.ok val) :
    (val = GoValue.boolean true →
      (∀ m, mergeEffects eAst.value [Effect.allow] [1] 0 1 = Except.error m →
        enforce compile evalE mergeEffects jg e "" none rvals =
          (Except.error m, { e with matcherMap := cache2 }, none)) ∧
      (∀ eff1 ei1, mergeEffects eAst.value [Effect.allow] [1] 0 1 = Except.ok (eff1, ei1) →
        enforce compile evalE mergeEffects jg e "" none rvals =
          (Except.ok (eff1 == Effect.allow), { e with matcherMap := cache2 }, none))) ∧
    (val = GoValue.boolean false →
      (∀ m, mergeEffects eAst.value [Effect.indeterminate] [1] 0 1 = Except.error m →
        enforce compile evalE mergeEffects jg e "" none rvals =
          (Except.error m, { e with matcherMap := cache2 }, none)) ∧
      (∀ eff1 ei1, mergeEffects eAst.value [Effect.indeterminate] [1] 0 1 =
          Except.ok (eff1, ei1) →
        enforce compile evalE mergeEffects jg e "" none rvals =
          (Except.ok (eff1 == Effect.allow), { e with matcherMap := cache2 }, none))) ∧
    ((∀ b, ¬(val = GoValue.boolean b)) →
      enforce compile evalE mergeEffects jg e "" none rvals =
        (Except.error ("panic: " ++ typeAssertMsg), { e with matcherMap := cache2 }, none)) := by
  rw [show ("p" ++ "_" : String) = "p_" from rfl] at hbranch
  have hbranch2 : ¬(¬pAst.policy = [] ∧ strContains s2 "p_" = true) := by
    rintro ⟨hne, hc⟩
    have h1 : pAst.policy.length ≠ 0 := by simpa [List.length_eq_zero] using hne
    simp [h1, hc] at hbranch
  refine ⟨?_, ?_, ?_⟩
  · intro hval
    subst hval
    constructor
    all_goals intro a1
    · intro hmerge
      unfold enforce enforceBody
      rw [hctx]
      simp [hen, expStringOf, hm, hr, hp]
      rw [hjson]
      simp [hcache, harity, hbranch2, enforceNoPolicy, hguard, hv, he, hmerge, finishStep]
    · intro ei1 hmerge
      unfold enforce enforceBody
      rw [hctx]
      simp [hen, expStringOf, hm, hr, hp]
      rw [hjson]
      simp [hcache, harity, hbranch2, enforceNoPolicy, hguard, hv, he, hmerge, finishStep]
  · intro hval
    subst hval
    constructor
    all_goals intro a1
    · intro hmerge
      unfold enforce enforceBody
      rw [hctx]
      simp [hen, expStringOf, hm, hr, hp]
      rw [hjson]
      simp [hcache, harity, hbranch2, enforceNoPolicy, hguard, hv, he, hmerge, finishStep]
    · intro ei1 hmerge
      unfold enforce enforceBody
      rw [hctx]
      simp [hen, expStringOf, hm, hr, hp]
      rw [hjson]
      simp [hcache, harity, hbranch2, enforceNoPolicy, hguard, hv, he, hmerge, finishStep]
  · intro hb
    unfold enforce enforceBody
    rw [hctx]
    simp [hen, expStringOf, hm, hr, hp]
    rw [hjson]
    cases val with
    | boolean b => exact absurd rfl (hb b)
    | str s => simp [hcache, harity, hbranch2, enforceNoPolicy, hguard, hv]
    | num x => simp [hcache, harity, hbranch2, enforceNoPolicy, hguard, hv]
    | ctx c => simp [hcache, harity, hbranch2, enforceNoPolicy, hguard, hv]
    | other => simp [hcache, harity, hbranch2, enforceNoPolicy, hguard, hv]

/-- Witness for C10: a numeric matcher result (which the per-tuple path
would have accepted as a weight) makes `enforce` return the recovered
type-assertion panic as an error on a concrete empty-policy model. -/
theorem no_policy_branch_bool_assertion_witness :
    enforce (fun _ => Except.ok ()) (fun _ _ => Outcome.ok (GoValue.num 3))
        (fun _ _ _ _ _ => Except.ok (Effect.allow, -1)) (fun _ _ => "")
        (⟨[("r", [("r", ⟨["r_sub"], "sub", []⟩)]),
           ("p", [("p", ⟨["p_sub"], "sub", []⟩)]),
           ("e", [("e", ⟨[], "some(where (p_eft == allow))", []⟩)]),
           ("m", [("m", ⟨[], "r_sub == 1", []⟩)])], [], (), true, true, false⟩ :
          Enforcer Unit Unit) "" none [GoValue.str "alice"] =
      (Except.error ("panic: " ++ typeAssertMsg),
        ⟨[("r", [("r", ⟨["r_sub"], "sub", []⟩)]),
          ("p", [("p", ⟨["p_sub"], "sub", []⟩)]),
          ("e", [("e", ⟨[], "some(where (p_eft == allow))", []⟩)]),
          ("m", [("m", ⟨[], "r_sub == 1", []⟩)])], [("r_sub == 1", ())], (), true, true, false⟩,
        none) := by
  exact (no_policy_branch_bool_assertion (fun _ => Except.ok ())
    (fun _ _ => Outcome.ok (GoValue.num 3)) (fun _ _ _ _ _ => Except.ok (Effect.allow, -1))
    (fun _ _ => "")
    ⟨[("r", [("r", ⟨["r_sub"], "sub", []⟩)]),
      ("p", [("p", ⟨["p_sub"], "sub", []⟩)]),
      ("e", [("e", ⟨[], "some(where (p_eft == allow))", []⟩)]),
      ("m", [("m", ⟨[], "r_sub == 1", []⟩)])], [], (), true, true, false⟩
    [GoValue.str "alice"] ⟨[], "r_sub == 1", []⟩ ⟨["r_sub"], "sub", []⟩ ⟨["p_sub"], "sub", []⟩
    ⟨[], "some(where (p_eft == allow))", []⟩ "r_sub == 1" () [("r_sub == 1", ())]
    (GoValue.num 3) rfl rfl rfl rfl rfl rfl rfl rfl rfl rfl rfl rfl).2.2
    (fun b h => GoValue.noConfusion h)

/-- `buildRoleLinksE` only touches the role-manager state: the model field
is preserved. -/
theorem buildRoleLinksE_model {Expr RM : Type} (clearRM : RM → RM × Option String)
    (buildLinks : Model → RM → RM × Option String) (e : Enforcer Expr RM) :
    (buildRoleLinksE clearRM buildLinks e).1.model = e.model := by
  unfold buildRoleLinksE
  rcases clearRM e.rm with ⟨rm1, copt⟩
  cases copt with
  | none =>
    rcases buildLinks e.model rm1 with ⟨rm2, berr⟩
    rfl
  | some m => rfl

/-- On any failure, `loadPolicyAfterAdapter` leaves the model field of the
enforcer it returns equal to the one it was given. -/
theorem loadPolicyAfterAdapter_failure_model {Expr RM : Type}
    (sortSubj sortPrio : Model → Except String Model)
    (clearRM : RM → RM × Option String) (buildLinks : Model → RM → RM × Option String)
    (e0 e2 : Enforcer Expr RM) (m1 : Model) (msg : String)
    (h : loadPolicyAfterAdapter sortSubj sortPrio clearRM buildLinks e0 m1 = (e2, some msg)) :
    e2.model = e0.model := by
  unfold loadPolicyAfterAdapter at h
  split at h
  · simp only [Prod.mk.injEq] at h
    obtain ⟨h1, _⟩ := h
    subst h1
    rfl
  · split at h
    · simp only [Prod.mk.injEq] at h
      obtain ⟨h1, _⟩ := h
      subst h1
      rfl
    · split at h
      · split at h
        · simp only [Prod.mk.injEq] at h
          obtain ⟨h1, _⟩ := h
          subst h1
          exact buildRoleLinksE_model clearRM buildLinks _
        · split at h
          · simp only [Prod.mk.injEq] at h
            obtain ⟨h1, _⟩ := h
            subst h1
            exact buildRoleLinksE_model clearRM buildLinks _
          · simp at h
      · simp at h

/-- Claim C6: if `LoadPolicy` fails at any step — adapter load, either sort
pass, role-manager clearing or role-link building — the enforcer keeps its
previously installed model (and hence its policy tuples): the new model is
built on a side copy and only assigned on full success (lines 345-390), so
subsequent decisions still read the old model. -/
theorem load_policy_failure_keeps_model {Expr RM : Type}
    (adapterLoad : Model → Model × Option String)
    (sortSubj sortPrio : Model → Except String Model)
    (clearRM : RM → RM × Option String) (buildLinks : Model → RM → RM × Option String)
    (e e2 : Enforcer Expr RM) (msg : String)
    (h : LoadPolicy adapterLoad sortSubj sortPrio clearRM buildLinks e = (e2, some msg)) :
    e2.model = e.model := by
  unfold LoadPolicy at h
  split at h
  · split at h
    · simp only [Prod.mk.injEq] at h
      obtain ⟨h1, _⟩ := h
      subst h1
      rfl
    · exact loadPolicyAfterAdapter_failure_model sortSubj sortPrio clearRM buildLinks
        { e with matcherMap := [] } e2 _ msg h
  · exact loadPolicyAfterAdapter_failure_model sortSubj sortPrio clearRM buildLinks
      { e with matcherMap := [] } e2 _ msg h

/-- Witness for C6: a concrete adapter failure leaves the concrete model in
place (only the matcher cache is invalidated). -/
theorem load_policy_failure_keeps_model_witness :
    LoadPolicy (fun m => (m, some "db down")) Except.ok Except.ok
        (fun r => (r, none)) (fun _ r => (r, none))
        ⟨[("p", [("p", ⟨["p_sub"], "sub", [["alice"]]⟩)])], [("m0", ())], (), true, true, false⟩ =
      (⟨[("p", [("p", ⟨["p_sub"], "sub", [["alice"]]⟩)])], [], (), true, true, false⟩,
        some "db down") ∧
    (LoadPolicy (fun m => (m, some "db down")) Except.ok Except.ok
        (fun r => (r, none)) (fun _ r => (r, none))
        ⟨[("p", [("p", ⟨["p_sub"], "sub", [["alice"]]⟩)])], [("m0", ())], (), true, true,
          false⟩).1.model =
      [("p", [("p", ⟨["p_sub"], "sub", [["alice"]]⟩)])] := by
  constructor
  · rfl
  · exact load_policy_failure_keeps_model (fun m => (m, some "db down")) Except.ok Except.ok
      (fun r => (r, none)) (fun _ r => (r, none))
      ⟨[("p", [("p", ⟨["p_sub"], "sub", [["alice"]]⟩)])], [("m0", ())], (), true, true, false⟩
      ⟨[("p", [("p", ⟨["p_sub"], "sub", [["alice"]]⟩)])], [], (), true, true, false⟩
      "db down" rfl
